import Mathlib

/-!
Verification development for the Finance News Assistant bot (Go sources:
`main.go` and its earlier in-repo variants).  The Go functions are shallowly
embedded as pure Lean functions: external HTTP calls become explicit input
parameters carrying the call's outcome, the global USD/VND cache becomes an
explicit `CacheState` threaded through `getCachedUsdVnd`, and `float64`
prices become rationals.  Booleans such as `fetched` instrument which
control-flow branch ran (whether the code would have performed the upstream
call on that path).
-/

namespace FinanceBot

/-! ## Decimal rendering and parsing helpers

Models of the Go runtime pieces the source leans on: `fmt.Sprintf("%.0f",v)`
and `"%.2f"` (round half-to-even to a fixed number of decimals, then print),
and `strconv.ParseFloat` restricted to plain decimal notation (the forms the
quote API produces); the source ignores `ParseFloat`'s error, so a
non-parsing string contributes the value 0. -/

def digitChar (d : ℕ) : Char := Char.ofNat (48 + d)

def natDigitsAux : ℕ → ℕ → List Char
  | 0, _ => []
  | fuel + 1, n =>
    if n < 10 then [digitChar n]
    else natDigitsAux fuel (n / 10) ++ [digitChar (n % 10)]

def natDigits (n : ℕ) : List Char := natDigitsAux (n + 1) n

/-- Round the fraction `num / den` (with `den > 0`) to the nearest integer,
ties to even — the rounding `fmt`'s fixed-point verbs apply.  Phrased over
the numerator and denominator so that it stays within kernel-computable
integer arithmetic. -/
def roundHalfEvenPair (num den : ℤ) : ℤ :=
  let f := num / den
  let r2 := 2 * (num - f * den)
  if r2 < den then f
  else if den < r2 then f + 1
  else if f % 2 = 0 then f else f + 1

def roundHalfEven (q : ℚ) : ℤ := roundHalfEvenPair q.num (q.den : ℤ)

def splitOnDot : List Char → List (List Char)
  | [] => [[]]
  | c :: t =>
    if c = '.' then [] :: splitOnDot t
    else
      match splitOnDot t with
      | [] => [[c]]
      | g :: gs => (c :: g) :: gs

def parseDigitsAux : List Char → ℕ → Option ℕ
  | [], acc => some acc
  | c :: rest, acc =>
    if c.isDigit then parseDigitsAux rest (acc * 10 + (c.toNat - 48)) else none

/-- Parse an unsigned decimal (`123` or `123.45`) into a numerator and a
positive denominator. -/
def parseUnsigned (l : List Char) : Option (ℤ × ℕ) :=
  match splitOnDot l with
  | [ip] =>
    if ip = [] then none
    else (parseDigitsAux ip 0).map (fun n => ((n : ℤ), 1))
  | [ip, fp] =>
    if ip = [] ∨ fp = [] then none
    else
      match parseDigitsAux ip 0, parseDigitsAux fp 0 with
      | some i, some f => some (((i * 10 ^ fp.length + f : ℕ) : ℤ), 10 ^ fp.length)
      | _, _ => none
  | _ => none

/-- Model of `strconv.ParseFloat` with the error ignored (the source does
`p, _ := strconv.ParseFloat(...)`): a malformed string yields 0. -/
def parseFloatOr0 (s : String) : ℚ :=
  match s.toList with
  | '-' :: t =>
    match parseUnsigned t with
    | some p => mkRat (-p.1) p.2
    | none => 0
  | '+' :: t =>
    match parseUnsigned t with
    | some p => mkRat p.1 p.2
    | none => 0
  | l =>
    match parseUnsigned l with
    | some p => mkRat p.1 p.2
    | none => 0

/-- Model of `fmt.Sprintf("%.2f", q)` (sign of a negative zero omitted). -/
def format2 (q : ℚ) : String :=
  let n := roundHalfEvenPair (q.num * 100) (q.den : ℤ)
  let a := n.natAbs
  (if n < 0 then "-" else "") ++ String.mk (natDigits (a / 100)) ++ "." ++
    (if a % 100 < 10 then "0" else "") ++ String.mk (natDigits (a % 100))

/-! ## Market data fetch (`getMarketData`, main.go lines 107-144)

The HTTP transport and JSON decoding are external; `FetchOutcome` is the
observable result at the point the Go code resumes: either the request
errored (`err != nil`), or a response was decoded into the anonymous struct
with fields `Close`, `PercentChange`, `Message` (an undecodable body leaves
all three fields as their zero value `""`, because the `Decode` error is
ignored). -/

inductive FetchOutcome where
  | transportError : FetchOutcome
  | response (close percentChange message : String) : FetchOutcome
  deriving DecidableEq

structure MarketData where
  Price : ℚ
  Change : String
  deriving DecidableEq

def getMarketData : FetchOutcome → MarketData
  | FetchOutcome.transportError => ⟨0, "0.00%"⟩
  | FetchOutcome.response close percentChange message =>
    if message ≠ "" then ⟨0, "N/A"⟩
    else
      let p := parseFloatOr0 close
      let c := parseFloatOr0 percentChange
      let base := format2 c ++ "%"
      let changeStr :=
        if 0 < c then "📈 +" ++ base
        else if c < 0 then "📉 " ++ base
        else base
      ⟨p, changeStr⟩

/-! ## Quote cache (`getCachedUsdVnd`, main.go lines 146-158)

Globals `cachedUsdVnd` and `lastCacheUpdate` become `CacheState`; timestamps
are integers (seconds), `cacheDuration = 6 * time.Hour` becomes 21600
seconds, and `time.Since(lastCacheUpdate)` becomes `now - last`.  The result
of the upstream call `getMarketData("USD/VND", apiKey)` is passed in as
`data`; `fetched` records whether the branch performing that call ran. -/

def cacheDuration : ℤ := 21600

structure CacheState where
  cached : ℚ
  last : ℤ
  deriving DecidableEq

structure CacheResult where
  value : ℚ
  error : Option String
  state : CacheState
  fetched : Bool
  deriving DecidableEq

def getCachedUsdVnd (s : CacheState) (now : ℤ) (data : MarketData) : CacheResult :=
  if now - s.last < cacheDuration ∧ 0 < s.cached then
    ⟨s.cached, none, s, false⟩
  else if data.Price = 0 then
    ⟨25000, some "API_ERROR", s, true⟩
  else
    ⟨data.Price, none, ⟨data.Price, now⟩, true⟩

/-- Number of upstream fetches performed by two consecutive cache reads, at
times `t1` and `t2`, where the upstream call (if made) would return `d1`
resp. `d2`. -/
def fetchCountTwo (s : CacheState) (t1 t2 : ℤ) (d1 d2 : MarketData) : ℕ :=
  (if (getCachedUsdVnd s t1 d1).fetched then 1 else 0) +
  (if (getCachedUsdVnd (getCachedUsdVnd s t1 d1).state t2 d2).fetched then 1 else 0)

/-! ## Translation (`translateToVietnamese`, main.go lines 160-174)

`main.go` returns the input when `GOOGLE_SCRIPT_URL` is unset or the HTTP
call errors (`err != nil || resp == nil`), and otherwise returns the
response body as-is — unlike the older in-repo variant, it performs no
check for an HTML payload.  The call outcome is `none` for an error/nil
response, `some body` for a readable body. -/

def translateToVietnamese (scriptURL : String) (resp : Option String)
    (text : String) : String :=
  if scriptURL = "" then text
  else
    match resp with
    | none => text
    | some body => body

/-! ## VND formatting (`formatVnd`, main.go lines 176-187)

The Go loop walks the rendered digit string from the right in steps of 3,
prepending each slice `str[max(0,i-3):i]`, then joins the groups with ".".
`vndGroups str i` is that loop with the index made explicit (the `i+3` case
is a loop step with `start = i`; the `1` and `2` cases are the final short
slice with the `start < 0` clamp). -/

def vndGroups (str : List Char) : ℕ → List (List Char)
  | 0 => []
  | 1 => [str.take 1]
  | 2 => [str.take 2]
  | i + 3 => vndGroups str i ++ [(str.drop i).take 3]

/-- Model of `strings.Join(result, ".")`. -/
def joinDots : List (List Char) → List Char
  | [] => []
  | [g] => g
  | g :: gs => g ++ '.' :: joinDots gs

/-- Model of `fmt.Sprintf("%.0f", val)`. -/
def fmtF0 (val : ℚ) : List Char :=
  let n := roundHalfEven val
  if n < 0 then '-' :: natDigits n.natAbs else natDigits n.toNat

def formatVnd (val : ℚ) : String :=
  let str := fmtF0 val
  String.mk (joinDots (vndGroups str str.length))

/-- Decimal digit string of `v` rounded to an integer (the reference value
the grouping is compared against, for non-negative `v`). -/
def roundedDigits (v : ℚ) : List Char := natDigits (roundHalfEven v).toNat

/-! ## News rendering (`getMarketUpdate` news loop, main.go lines 204-216)

`for i, item := range feed.Items { if i >= 8 { break } ... }`, appending one
rendered block per item. -/

structure FeedItem where
  title : String
  link : String
  deriving DecidableEq

def renderNewsItem (tr : String → String) (it : FeedItem) : String :=
  "🔹 **" ++ tr it.title ++ "**\n🔗 [Xem chi tiết](" ++ it.link ++ ")\n\n"

def newsListLoop (tr : String → String) : List FeedItem → ℕ → String
  | [], _ => ""
  | it :: rest, i =>
    if 8 ≤ i then "" else renderNewsItem tr it ++ newsListLoop tr rest (i + 1)

/-- Concatenation of a list of strings (reference form for the news list). -/
def joinStrings : List String → String
  | [] => ""
  | s :: rest => s ++ joinStrings rest

/-! ## Report assembly (`getMarketUpdate`, main.go lines 189-240)

The function fetches gold, EUR and BTC quotes and the cached USD/VND rate,
then either short-circuits into the degraded message (when `gold.Price ==
0`) or fetches the news feed and assembles the full report.  The embedding
returns the report's data (the final `fmt.Sprintf` markup is presentation);
`newsFetched` records whether the branch containing `fp.ParseURL` ran, and
`feed` is that call's outcome (`none` when the parser returned `nil`). -/

inductive UpdateReport where
  | degraded (text : String) : UpdateReport
  | full (dateStr newsList usdVndFormatted : String) (goldPrice : ℚ)
      (goldChange : String) (eurPrice : ℚ) (eurChange : String)
      (btcPrice : ℚ) (btcChange : String) : UpdateReport
  deriving DecidableEq

structure UpdateOutcome where
  report : UpdateReport
  newsFetched : Bool
  cacheAfter : CacheState
  deriving DecidableEq

def headlines : UpdateReport → String
  | UpdateReport.degraded _ => ""
  | UpdateReport.full _ n _ _ _ _ _ _ _ => n

def isDegraded : UpdateReport → Bool
  | UpdateReport.degraded _ => true
  | UpdateReport.full _ _ _ _ _ _ _ _ _ => false

def getMarketUpdate (dateStr : String) (goldF eurF btcF usdF : FetchOutcome)
    (s : CacheState) (now : ℤ) (feed : Option (List FeedItem))
    (tr : String → String) : UpdateOutcome :=
  let gold := getMarketData goldF
  let eur := getMarketData eurF
  let btc := getMarketData btcF
  let cr := getCachedUsdVnd s now (getMarketData usdF)
  if gold.Price = 0 then
    ⟨UpdateReport.degraded
        ("📅 **Bản tin [" ++ dateStr ++ "]**\n⚠️ API credits exhausted or market closed."),
      false, cr.state⟩
  else
    let newsList :=
      match feed with
      | none => ""
      | some items => newsListLoop tr items 0
    ⟨UpdateReport.full dateStr newsList (formatVnd cr.value) gold.Price gold.Change
        eur.Price eur.Change btc.Price btc.Change,
      true, cr.state⟩

/-! ## Subscriber registry (file-backed variant: `loadUsers` / `saveUser`)

The flat-file registry (older in-repo variant, `users.txt`): the file is a
sequence of decimal lines, modelled as the list of parsed integers.
`loadUsers` scans the lines and keeps every id with `id != 0` (a failed
`ParseInt` yields 0, so zero and unparseable lines are dropped); `saveUser`
re-reads the file and appends the id only when it is not present in the
loaded set.  The MongoDB variant in `main.go` delegates the same contract
to an external upsert keyed by `chat_id`. -/

def loadUsers (file : List ℤ) : Finset ℤ :=
  (file.filter (fun id => id ≠ 0)).toFinset

def saveUser (file : List ℤ) (id : ℤ) : List ℤ :=
  if id ∈ loadUsers file then file else file ++ [id]

/-- Registering a sequence of ids against a fresh (empty) backing file. -/
def registerAll (ids : List ℤ) : List ℤ :=
  ids.foldl saveUser []

/-! ## Broadcast fan-out (`Handler` empty-body branch, main.go lines 260-272)

The Go loop `for id := range users { b.Send(...) }` iterates all recipients
unconditionally; each `b.Send` either succeeds or returns an error that is
logged (older variant) or discarded; there is no early exit, and the
handler then returns status 200 with body "Broadcast complete" regardless.
The send capability becomes a function to `Bool` (true = success) and the
loop is instrumented to record each attempted delivery with its outcome. -/

def broadcastLoop (send : ℤ → Bool) : List ℤ → List (ℤ × Bool)
  | [] => []
  | id :: rest => (id, send id) :: broadcastLoop send rest

def handlerBroadcast (users : List ℤ) (send : ℤ → Bool) :
    List (ℤ × Bool) × ℕ × String :=
  (broadcastLoop send users, 200, "Broadcast complete")

/-! ## Helper lemmas -/

theorem natDigitsAux_mem (fuel : ℕ) :
    ∀ n c, c ∈ natDigitsAux fuel n → ∃ d, d < 10 ∧ c = digitChar d := by
  induction fuel with
  | zero => intro n c hc; cases hc
  | succ fuel ih =>
    intro n c hc
    unfold natDigitsAux at hc
    by_cases h : n < 10
    · rw [if_pos h] at hc
      rcases List.mem_singleton.mp hc with h'
      exact ⟨n, h, h'⟩
    · rw [if_neg h] at hc
      rcases List.mem_append.mp hc with h' | h'
      · exact ih (n / 10) c h'
      · exact ⟨n % 10, Nat.mod_lt n (by omega), List.mem_singleton.mp h'⟩

theorem digitChar_ne_dot : ∀ d, d < 10 → digitChar d ≠ '.' := by decide

theorem natDigits_mem_ne_dot (n : ℕ) : ∀ c ∈ natDigits n, c ≠ '.' := by
  intro c hc
  rcases natDigitsAux_mem (n + 1) n c hc with ⟨d, hd, hcd⟩
  rw [hcd]
  exact digitChar_ne_dot d hd

theorem natDigits_ne_nil (n : ℕ) : natDigits n ≠ [] := by
  unfold natDigits natDigitsAux
  split <;> simp

theorem vndGroups_ne_nil (str : List Char) (i : ℕ) (hi : 0 < i) :
    vndGroups str i ≠ [] := by
  rcases i with _ | _ | _ | j
  · omega
  · simp [vndGroups]
  · simp [vndGroups]
  · simp [vndGroups]

theorem vndGroups_join (str : List Char) :
    ∀ i, i ≤ str.length → (vndGroups str i).flatten = str.take i := by
  intro i
  induction i using Nat.strong_induction_on with
  | _ i ih =>
    rcases i with _ | _ | _ | j
    · intro _; simp [vndGroups]
    · intro _; simp [vndGroups]
    · intro _; simp [vndGroups]
    · intro h
      have hj := ih j (by omega) (by omega)
      simp only [vndGroups, List.flatten_append, hj]
      rw [show j + 1 + 1 + 1 = j + 3 from rfl, List.take_add]
      simp

theorem vndGroups_lengths (str : List Char) :
    ∀ i, i ≤ str.length →
      (∀ g ∈ vndGroups str i, 1 ≤ g.length ∧ g.length ≤ 3) ∧
      (∀ g ∈ (vndGroups str i).drop 1, g.length = 3) := by
  intro i
  induction i using Nat.strong_induction_on with
  | _ i ih =>
    rcases i with _ | _ | _ | j
    · intro _; simp [vndGroups]
    · intro h
      constructor
      · intro g hg
        simp only [vndGroups, List.mem_singleton] at hg
        subst hg
        simp only [List.length_take]
        omega
      · simp [vndGroups]
    · intro h
      constructor
      · intro g hg
        simp only [vndGroups, List.mem_singleton] at hg
        subst hg
        simp only [List.length_take]
        omega
      · simp [vndGroups]
    · intro h
      have hlast : ((str.drop j).take 3).length = 3 := by
        simp only [List.length_take, List.length_drop]
        omega
      have ihj := ih j (by omega)
      constructor
      · intro g hg
        simp only [vndGroups, List.mem_append, List.mem_singleton] at hg
        rcases hg with h' | h'
        · exact (ihj (by omega)).1 g h'
        · subst h'
          rw [hlast]
          omega
      · intro g hg
        simp only [vndGroups] at hg
        by_cases hj : j = 0
        · subst hj
          simp [vndGroups] at hg
        · have hne2 : vndGroups str j ≠ [] := vndGroups_ne_nil str j (by omega)
          have hlen : 1 ≤ (vndGroups str j).length := by
            have := List.length_pos.mpr hne2
            omega
          rw [List.drop_append_of_le_length hlen] at hg
          rcases List.mem_append.mp hg with h' | h'
          · exact (ihj (by omega)).2 g h'
          · rcases List.mem_singleton.mp h' with rfl
            exact hlast

theorem joinDots_filter (gs : List (List Char))
    (h : ∀ g ∈ gs, ∀ c ∈ g, c ≠ '.') :
    (joinDots gs).filter (fun c => c != '.') = gs.flatten := by
  induction gs with
  | nil => rfl
  | cons g rest ih =>
    have hg : g.filter (fun c => c != '.') = g := by
      rw [List.filter_eq_self]
      intro c hc
      simp [h g (List.mem_cons_self _ _) c hc]
    cases rest with
    | nil =>
      show g.filter (fun c => c != '.') = [g].flatten
      rw [hg]
      simp
    | cons g2 t =>
      have hrest : ∀ g' ∈ g2 :: t, ∀ c ∈ g', c ≠ '.' :=
        fun g' hg' => h g' (List.mem_cons_of_mem _ hg')
      show (g ++ '.' :: joinDots (g2 :: t)).filter (fun c => c != '.')
        = g ++ (g2 :: t).flatten
      rw [List.filter_append, hg]
      congr 1
      have hdrop : ('.' :: joinDots (g2 :: t)).filter (fun c => c != '.')
          = (joinDots (g2 :: t)).filter (fun c => c != '.') := by
        simp
      rw [hdrop, ih hrest]

theorem newsListLoop_take (tr : String → String) :
    ∀ (items : List FeedItem) (i : ℕ),
      newsListLoop tr items i =
        joinStrings ((items.take (8 - i)).map (renderNewsItem tr)) := by
  intro items
  induction items with
  | nil => intro i; simp [newsListLoop, joinStrings]
  | cons it rest ih =>
    intro i
    unfold newsListLoop
    by_cases h : 8 ≤ i
    · rw [if_pos h]
      have : 8 - i = 0 := by omega
      rw [this]
      rfl
    · rw [if_neg h, ih (i + 1)]
      have : 8 - i = (8 - (i + 1)) + 1 := by omega
      rw [this, List.take_succ_cons]
      rfl

theorem loadUsers_saveUser (file : List ℤ) (id : ℤ) (h : id ≠ 0) :
    loadUsers (saveUser file id) = insert id (loadUsers file) := by
  unfold saveUser
  by_cases hm : id ∈ loadUsers file
  · rw [if_pos hm, Finset.insert_eq_self.mpr hm]
  · rw [if_neg hm]
    unfold loadUsers
    rw [List.filter_append, List.toFinset_append]
    simp [h, Finset.union_comm, Finset.insert_eq]

theorem loadUsers_foldl (ids : List ℤ) :
    ∀ file : List ℤ, (∀ i ∈ ids, i ≠ 0) →
      loadUsers (ids.foldl saveUser file) = loadUsers file ∪ ids.toFinset := by
  induction ids with
  | nil => intro file _; simp
  | cons a rest ih =>
    intro file h
    have ha : a ≠ 0 := h a (List.mem_cons_self a rest)
    have hrest : ∀ i ∈ rest, i ≠ 0 := fun i hi => h i (List.mem_cons_of_mem a hi)
    rw [List.foldl_cons, ih (saveUser file a) hrest, loadUsers_saveUser file a ha]
    rw [List.toFinset_cons]
    rw [Finset.insert_union, Finset.union_insert]

theorem broadcastLoop_length (send : ℤ → Bool) (users : List ℤ) :
    (broadcastLoop send users).length = users.length := by
  induction users with
  | nil => rfl
  | cons a rest ih => simp [broadcastLoop, ih]

theorem broadcastLoop_mem (send : ℤ → Bool) (users : List ℤ) (u : ℤ)
    (hu : u ∈ users) : (u, send u) ∈ broadcastLoop send users := by
  induction users with
  | nil => cases hu
  | cons a rest ih =>
    rcases List.mem_cons.mp hu with h | h
    · subst h; exact List.mem_cons_self _ _
    · exact List.mem_cons_of_mem _ (ih h)

theorem roundHalfEvenPair_nonneg (num den : ℤ) (hn : 0 ≤ num) (hd : 0 < den) :
    0 ≤ roundHalfEvenPair num den := by
  have hf : 0 ≤ num / den := Int.ediv_nonneg hn (le_of_lt hd)
  simp only [roundHalfEvenPair]
  split
  · exact hf
  · split
    · omega
    · split <;> omega

theorem roundHalfEven_nonneg (q : ℚ) (h : 0 ≤ q) : 0 ≤ roundHalfEven q := by
  unfold roundHalfEven
  exact roundHalfEvenPair_nonneg q.num (q.den : ℤ) (Rat.num_nonneg.mpr h)
    (Int.natCast_pos.mpr q.pos)

/-! ## Claim theorems -/

/-- C1 (amended): if the anchor (gold) quote fetch yields a price that is
missing, unparseable, or exactly zero — all of which the code observes as
`gold.Price == 0` — then `getMarketUpdate` short-circuits into the degraded
"unavailable" report, attempts no news fetch, and carries empty headlines.
(A strictly negative parsed price does not trigger the degraded path, see
the counterexample.) -/
theorem getMarketUpdate_degraded_on_zero_anchor
    (dateStr : String) (goldF eurF btcF usdF : FetchOutcome) (s : CacheState)
    (now : ℤ) (feed : Option (List FeedItem)) (tr : String → String)
    (h : (getMarketData goldF).Price = 0) :
    (getMarketUpdate dateStr goldF eurF btcF usdF s now feed tr).report
      = UpdateReport.degraded
          ("📅 **Bản tin [" ++ dateStr ++ "]**\n⚠️ API credits exhausted or market closed.") ∧
    (getMarketUpdate dateStr goldF eurF btcF usdF s now feed tr).newsFetched = false ∧
    headlines (getMarketUpdate dateStr goldF eurF btcF usdF s now feed tr).report = "" := by
  simp only [getMarketUpdate]
  rw [if_pos h]
  exact ⟨rfl, rfl, rfl⟩

/-- C1 witness: a transport error on the gold quote produces the degraded
report without a news fetch. -/
theorem getMarketUpdate_degraded_witness :
    (getMarketData FetchOutcome.transportError).Price = 0 ∧
    (getMarketUpdate "01/01/2026" FetchOutcome.transportError FetchOutcome.transportError
        FetchOutcome.transportError FetchOutcome.transportError ⟨0, 0⟩ 0 none
        (fun t => t)).newsFetched = false := by
  have h := getMarketUpdate_degraded_on_zero_anchor "01/01/2026" FetchOutcome.transportError
    FetchOutcome.transportError FetchOutcome.transportError FetchOutcome.transportError
    ⟨0, 0⟩ 0 none (fun t => t) (by decide)
  exact ⟨by decide, h.2.1⟩

/-- C1 counterexample: a fetched anchor price of -1 is non-positive, yet the
report is not degraded and the news fetch is attempted — the code tests
`gold.Price == 0`, not `<= 0`, so the claim's "non-positive" premise is too
wide. -/
theorem getMarketUpdate_negative_anchor_counterexample :
    (getMarketData (FetchOutcome.response "-1" "0" "")).Price ≤ 0 ∧
    (getMarketData (FetchOutcome.response "-1" "0" "")).Price ≠ 0 ∧
    isDegraded (getMarketUpdate "d" (FetchOutcome.response "-1" "0" "")
        FetchOutcome.transportError FetchOutcome.transportError FetchOutcome.transportError
        ⟨0, 0⟩ 0 (some []) (fun t => t)).report = false ∧
    (getMarketUpdate "d" (FetchOutcome.response "-1" "0" "")
        FetchOutcome.transportError FetchOutcome.transportError FetchOutcome.transportError
        ⟨0, 0⟩ 0 (some []) (fun t => t)).newsFetched = true := by
  decide

/-- C2: if a cached value exists with `now - obtainedAt < ttl` and
`value > 0`, that cached value is returned with no upstream fetch and the
cache unchanged; consequently two reads within the TTL window with no
intervening expiry (formalised: the window is backed either by a
pre-existing valid entry or by a successful refresh on the first read;
a failed refresh leaves the cache expired, i.e. expiry intervenes)
perform at most one upstream fetch. -/
theorem getCachedUsdVnd_hit_and_single_fetch
    (s : CacheState) (t1 t2 : ℤ) (d1 d2 : MarketData)
    (hwin : t2 - t1 < cacheDuration)
    (hnoexp : (t1 - s.last < cacheDuration ∧ 0 < s.cached) ∨ 0 < d1.Price) :
    ((t1 - s.last < cacheDuration ∧ 0 < s.cached) →
      getCachedUsdVnd s t1 d1 = ⟨s.cached, none, s, false⟩) ∧
    fetchCountTwo s t1 t2 d1 d2 ≤ 1 := by
  by_cases hv : t1 - s.last < cacheDuration ∧ 0 < s.cached
  · have h1 : getCachedUsdVnd s t1 d1 = ⟨s.cached, none, s, false⟩ := by
      unfold getCachedUsdVnd
      rw [if_pos hv]
    refine ⟨fun _ => h1, ?_⟩
    unfold fetchCountTwo
    rw [h1]
    cases hc : (getCachedUsdVnd s t2 d2).fetched <;> simp [hc]
  · have hp : 0 < d1.Price := hnoexp.resolve_left hv
    have hne : ¬ d1.Price = 0 := ne_of_gt hp
    have h1 : getCachedUsdVnd s t1 d1 = ⟨d1.Price, none, ⟨d1.Price, t1⟩, true⟩ := by
      unfold getCachedUsdVnd
      rw [if_neg hv, if_neg hne]
    have h2 : getCachedUsdVnd ⟨d1.Price, t1⟩ t2 d2 = ⟨d1.Price, none, ⟨d1.Price, t1⟩, false⟩ := by
      unfold getCachedUsdVnd
      exact if_pos ⟨hwin, hp⟩
    refine ⟨fun hv' => absurd hv' hv, ?_⟩
    unfold fetchCountTwo
    simp [h1, h2]

/-- C2 witness: a cache holding 25000 obtained at time 0, read at times 100
and 200, is returned as-is and the two reads perform no fetch at all. -/
theorem getCachedUsdVnd_hit_witness :
    fetchCountTwo ⟨25000, 0⟩ 100 200 ⟨24000, "c"⟩ ⟨0, "c"⟩ ≤ 1 ∧
    getCachedUsdVnd ⟨25000, 0⟩ 100 ⟨24000, "c"⟩ = ⟨25000, none, ⟨25000, 0⟩, false⟩ := by
  have h := getCachedUsdVnd_hit_and_single_fetch ⟨25000, 0⟩ 100 200 ⟨24000, "c"⟩ ⟨0, "c"⟩
    (by decide) (Or.inl (by decide))
  exact ⟨h.2, h.1 (by decide)⟩

/-- C3: when the cache is empty or expired and the upstream fetch fails
(which this code variant encodes as a fetched price of 0), the cached value
and its timestamp are left unchanged and the failure is propagated to the
caller as a non-nil error. -/
theorem getCachedUsdVnd_failure_preserves_cache
    (s : CacheState) (now : ℤ) (data : MarketData)
    (hexp : ¬ (now - s.last < cacheDuration ∧ 0 < s.cached))
    (hfail : data.Price = 0) :
    (getCachedUsdVnd s now data).state = s ∧
    (getCachedUsdVnd s now data).error ≠ none := by
  unfold getCachedUsdVnd
  rw [if_neg hexp, if_pos hfail]
  exact ⟨rfl, by simp⟩

/-- C3 witness: a stale cache (value 25000 obtained at time 0, read at time
30000 > TTL) survives a failed refresh untouched, and the error is
reported. -/
theorem getCachedUsdVnd_failure_preserves_cache_witness :
    (getCachedUsdVnd ⟨25000, 0⟩ 30000 ⟨0, "c"⟩).state = ⟨25000, 0⟩ ∧
    (getCachedUsdVnd ⟨25000, 0⟩ 30000 ⟨0, "c"⟩).error ≠ none :=
  getCachedUsdVnd_failure_preserves_cache ⟨25000, 0⟩ 30000 ⟨0, "c"⟩ (by decide) (by decide)

/-- C4 (amended): for every finite sequence of nonzero `register(id)` calls,
with repeats allowed, a subsequent `all()` returns exactly the set of
distinct ids registered, of size at most the number of distinct ids
attempted, and re-registering an already present id leaves the backing file
unchanged (no second entry).  (The zero id is the exception the source
carves out: `loadUsers` drops it, see the counterexample.) -/
theorem registry_distinct_ids (ids : List ℤ) (h : ∀ i ∈ ids, i ≠ 0) :
    loadUsers (registerAll ids) = ids.toFinset ∧
    (loadUsers (registerAll ids)).card ≤ ids.dedup.length ∧
    (∀ i ∈ ids, saveUser (registerAll ids) i = registerAll ids) := by
  have hmain : loadUsers (registerAll ids) = ids.toFinset := by
    unfold registerAll
    rw [loadUsers_foldl ids [] h]
    simp [loadUsers]
  refine ⟨hmain, ?_, ?_⟩
  · rw [hmain, List.card_toFinset]
  · intro i hi
    unfold saveUser
    rw [if_pos]
    rw [hmain]
    exact List.mem_toFinset.mpr hi

/-- C4 witness: registering the sequence 7, 8, 7 yields exactly the set
with two elements 7 and 8, and re-registering 7 leaves the file unchanged. -/
theorem registry_distinct_ids_witness :
    loadUsers (registerAll [7, 8, 7]) = ([7, 8, 7] : List ℤ).toFinset ∧
    saveUser (registerAll [7, 8, 7]) 7 = registerAll [7, 8, 7] := by
  have h := registry_distinct_ids [7, 8, 7] (by decide)
  exact ⟨h.1, h.2.2 7 (by decide)⟩

/-- C4 counterexample: the claim fails for id 0.  Registering the single id
0 appends it to the file, yet `all()` filters it out, so the returned set is
not the set of distinct ids registered; moreover re-registering 0 does
append a duplicate entry to the backing file. -/
theorem registry_zero_id_counterexample :
    loadUsers (registerAll [0]) ≠ ([0] : List ℤ).toFinset ∧
    registerAll [0, 0] = [0, 0] := by
  constructor
  · decide
  · decide

/-- C5: when `send` fails for exactly the recipient `k`, the broadcast still
attempts delivery to every recipient (one result per recipient), records a
success for every recipient other than `k` and a failure specifically for
`k`, and the handler still completes with status 200 and no process-wide
error. -/
theorem broadcast_isolates_failures (users : List ℤ) (send : ℤ → Bool) (k : ℤ)
    (hk : ∀ id, send id = false ↔ id = k) :
    (broadcastLoop send users).length = users.length ∧
    (∀ u ∈ users, u ≠ k → (u, true) ∈ broadcastLoop send users) ∧
    (k ∈ users → (k, false) ∈ broadcastLoop send users) ∧
    (handlerBroadcast users send).2 = (200, "Broadcast complete") := by
  refine ⟨broadcastLoop_length send users, ?_, ?_, rfl⟩
  · intro u hu hne
    have hs : send u = true := by
      cases h : send u with
      | false => exact absurd ((hk u).mp h) hne
      | true => rfl
    have := broadcastLoop_mem send users u hu
    rwa [hs] at this
  · intro hkmem
    have hs : send k = false := (hk k).mpr rfl
    have := broadcastLoop_mem send users k hkmem
    rwa [hs] at this

/-- C5 witness: three recipients 1, 2, 3 with `send` failing exactly for 2:
all three deliveries are attempted, 1 and 3 are successes, 2 is the sole
failure, and the handler reports 200. -/
theorem broadcast_isolates_failures_witness :
    (broadcastLoop (fun id => if id = 2 then false else true) [1, 2, 3]).length = 3 ∧
    ((1 : ℤ), true) ∈ broadcastLoop (fun id => if id = 2 then false else true) [1, 2, 3] ∧
    ((2 : ℤ), false) ∈ broadcastLoop (fun id => if id = 2 then false else true) [1, 2, 3] := by
  have h := broadcast_isolates_failures [1, 2, 3] (fun id => if id = 2 then false else true) 2
    (by intro id; by_cases hid : id = 2 <;> simp [hid])
  exact ⟨h.1, h.2.1 1 (by decide) (by decide), h.2.2.1 (by decide)⟩

/-- C6 (amended): the translation step returns the input text unchanged
whenever the script URL is unset or the translation call errors, so a
translation failure never fails the report (the original headline is kept);
but a successfully fetched body is returned as-is even when it is
recognizably-wrong output such as an HTML payload. -/
theorem translateToVietnamese_error_fallback (scriptURL text : String)
    (resp : Option String) (hurl : scriptURL ≠ "") :
    translateToVietnamese scriptURL none text = text ∧
    translateToVietnamese "" resp text = text ∧
    (∀ body, translateToVietnamese scriptURL (some body) text = body) := by
  refine ⟨?_, ?_, ?_⟩
  · simp [translateToVietnamese, hurl]
  · simp [translateToVietnamese]
  · intro body
    simp [translateToVietnamese, hurl]

/-- C6 witness: with a configured script URL, a transport error falls back
to the original headline. -/
theorem translateToVietnamese_error_fallback_witness :
    translateToVietnamese "https://s" none "gold rises" = "gold rises" :=
  (translateToVietnamese_error_fallback "https://s" "gold rises" none (by decide)).1

/-- C6 counterexample: an HTML payload returned by the translation endpoint
is not recognized; `main.go` returns it instead of falling back to the
input text. -/
theorem translateToVietnamese_html_counterexample :
    translateToVietnamese "https://s" (some "<html>error</html>") "gold rises"
      = "<html>error</html>" ∧
    "<html>error</html>" ≠ "gold rises" := by
  constructor
  · rfl
  · decide

/-- C7: for a successful (non-degraded) aggregation with a parsed feed, the
report's headlines are exactly the first at-most-8 feed items, in feed
order, each rendered with its translated title and its link; items beyond
the cap are never read (two feeds agreeing on their first 8 items yield the
same headlines). -/
theorem getMarketUpdate_headlines_first_eight
    (dateStr : String) (goldF eurF btcF usdF : FetchOutcome) (s : CacheState)
    (now : ℤ) (items items2 : List FeedItem) (tr : String → String)
    (hgold : ¬ (getMarketData goldF).Price = 0)
    (hagree : items.take 8 = items2.take 8) :
    headlines (getMarketUpdate dateStr goldF eurF btcF usdF s now (some items) tr).report
      = joinStrings ((items.take 8).map (renderNewsItem tr)) ∧
    headlines (getMarketUpdate dateStr goldF eurF btcF usdF s now (some items) tr).report
      = headlines (getMarketUpdate dateStr goldF eurF btcF usdF s now (some items2) tr).report := by
  have h1 : ∀ its : List FeedItem,
      headlines (getMarketUpdate dateStr goldF eurF btcF usdF s now (some its) tr).report
        = joinStrings ((its.take 8).map (renderNewsItem tr)) := by
    intro its
    simp only [getMarketUpdate]
    rw [if_neg hgold]
    simp only [headlines]
    rw [newsListLoop_take tr its 0]
  refine ⟨h1 items, ?_⟩
  rw [h1 items, h1 items2, hagree]

/-- C7 witness: a two-item feed is rendered in full, in order, with titles
and links. -/
theorem getMarketUpdate_headlines_witness :
    ¬ (getMarketData (FetchOutcome.response "2000" "0" "")).Price = 0 ∧
    headlines (getMarketUpdate "d" (FetchOutcome.response "2000" "0" "")
        FetchOutcome.transportError FetchOutcome.transportError FetchOutcome.transportError
        ⟨0, 0⟩ 0 (some [⟨"t1", "l1"⟩, ⟨"t2", "l2"⟩]) (fun t => t)).report
      = joinStrings (([(⟨"t1", "l1"⟩ : FeedItem), ⟨"t2", "l2"⟩].take 8).map
          (renderNewsItem (fun t => t))) := by
  have h := getMarketUpdate_headlines_first_eight "d" (FetchOutcome.response "2000" "0" "")
    FetchOutcome.transportError FetchOutcome.transportError FetchOutcome.transportError
    ⟨0, 0⟩ 0 [⟨"t1", "l1"⟩, ⟨"t2", "l2"⟩] [⟨"t1", "l1"⟩, ⟨"t2", "l2"⟩] (fun t => t)
    (by decide) rfl
  exact ⟨by decide, h.1⟩

/-- C8: when the cache is empty or expired and the upstream quote fetch
yields price 0, `getCachedUsdVnd` returns the hardcoded rate 25000 together
with a non-nil error, leaving `cachedUsdVnd` and `lastCacheUpdate`
unchanged. -/
theorem getCachedUsdVnd_default_rate_on_failure
    (s : CacheState) (now : ℤ) (data : MarketData)
    (hexp : ¬ (now - s.last < cacheDuration ∧ 0 < s.cached))
    (hzero : data.Price = 0) :
    getCachedUsdVnd s now data = ⟨25000, some "API_ERROR", s, true⟩ := by
  unfold getCachedUsdVnd
  rw [if_neg hexp, if_pos hzero]

/-- C8 witness: an empty cache read at time 5 whose upstream fetch yields
price 0 produces the 25000 fallback, the `API_ERROR` error, and an
unchanged cache. -/
theorem getCachedUsdVnd_default_rate_witness :
    getCachedUsdVnd ⟨0, 0⟩ 5 ⟨0, "0.00%"⟩ = ⟨25000, some "API_ERROR", ⟨0, 0⟩, true⟩ :=
  getCachedUsdVnd_default_rate_on_failure ⟨0, 0⟩ 5 ⟨0, "0.00%"⟩ (by decide) (by decide)

/-- C9: `getMarketData` is total and never signals failure out of band: a
transport error, an undecodable body (all decoded fields left at their zero
value ""), and an API error message each produce a `MarketData` with
`Price = 0` and a placeholder change string, and a genuinely fetched price
of zero is indistinguishable from a transport failure. -/
theorem getMarketData_inband_failure :
    getMarketData FetchOutcome.transportError = ⟨0, "0.00%"⟩ ∧
    getMarketData (FetchOutcome.response "" "" "") = ⟨0, "0.00%"⟩ ∧
    (∀ close percentChange message, message ≠ "" →
      getMarketData (FetchOutcome.response close percentChange message) = ⟨0, "N/A"⟩) ∧
    getMarketData (FetchOutcome.response "0" "0" "")
      = getMarketData FetchOutcome.transportError := by
  refine ⟨rfl, by decide, ?_, by decide⟩
  intro close percentChange message hm
  simp only [getMarketData]
  rw [if_pos hm]

/-- C9 witness: a rate-limit message from the API yields the in-band
`Price = 0` with change "N/A". -/
theorem getMarketData_inband_failure_witness :
    ("API limit reached" ≠ "") ∧
    getMarketData (FetchOutcome.response "1900.5" "0.1" "API limit reached") = ⟨0, "N/A"⟩ :=
  ⟨by decide,
    getMarketData_inband_failure.2.2.1 "1900.5" "0.1" "API limit reached" (by decide)⟩

/-- C10: for every non-negative `v`, `formatVnd v` is the decimal digit
string of `v` rounded to an integer with '.' separators inserted so that
every separator-delimited group has exactly 3 digits except possibly the
first, which has 1 to 3; deleting all '.' separators recovers exactly the
rounded digit string. -/
theorem formatVnd_grouping (v : ℚ) (hv : 0 ≤ v) :
    (formatVnd v).toList = joinDots (vndGroups (roundedDigits v) (roundedDigits v).length) ∧
    vndGroups (roundedDigits v) (roundedDigits v).length ≠ [] ∧
    (∀ g ∈ vndGroups (roundedDigits v) (roundedDigits v).length,
      1 ≤ g.length ∧ g.length ≤ 3) ∧
    (∀ g ∈ (vndGroups (roundedDigits v) (roundedDigits v).length).drop 1, g.length = 3) ∧
    (formatVnd v).toList.filter (fun c => c != '.') = roundedDigits v := by
  have hfmt : fmtF0 v = roundedDigits v := by
    unfold fmtF0 roundedDigits
    rw [if_neg (not_lt.mpr (roundHalfEven_nonneg v hv))]
  have htl : (formatVnd v).toList
      = joinDots (vndGroups (roundedDigits v) (roundedDigits v).length) := by
    simp only [formatVnd, hfmt]
    rfl
  have hne : roundedDigits v ≠ [] := natDigits_ne_nil _
  have hlen : 0 < (roundedDigits v).length := List.length_pos.mpr hne
  have hgroups : ∀ g ∈ vndGroups (roundedDigits v) (roundedDigits v).length,
      ∀ c ∈ g, c ≠ '.' := by
    intro g hgmem c hc
    apply natDigits_mem_ne_dot ((roundHalfEven v).toNat) c
    have hcj : c ∈ (vndGroups (roundedDigits v) (roundedDigits v).length).flatten :=
      List.mem_flatten.mpr ⟨g, hgmem, hc⟩
    rwa [vndGroups_join _ _ le_rfl, List.take_length] at hcj
  refine ⟨htl, vndGroups_ne_nil _ _ hlen,
    (vndGroups_lengths _ _ le_rfl).1, (vndGroups_lengths _ _ le_rfl).2, ?_⟩
  rw [htl, joinDots_filter _ hgroups, vndGroups_join _ _ le_rfl, List.take_length]

/-- C10 witness: 1234567 groups into digit triples from the right, and
deleting the separators recovers the digit string. -/
theorem formatVnd_grouping_witness :
    (0 : ℚ) ≤ 1234567 ∧
    (formatVnd 1234567).toList.filter (fun c => c != '.') = roundedDigits 1234567 := by
  have h := formatVnd_grouping 1234567 (by decide)
  exact ⟨by decide, h.2.2.2.2⟩

end FinanceBot
